import Mathlib

/-!
Verification of the structural Java scanner of the nerd4j-vscode extension.

The TypeScript sources are embedded shallowly:
* strings become `List Char`, character access `code[i]` becomes `charAt`
  (returning `none` for the JavaScript `undefined`),
* JavaScript `number` indices become `Int`,
* code that can `throw` returns `Except JsError _`,
* each `for`/`while` loop becomes a recursive helper function named `...Go`.
-/

/-- Errors thrown by the JavaScript runtime or by explicit `throw` statements. -/
inductive JsError where
  /-- An explicit `throw new Error(msg)`. -/
  | thrown (msg : String)
  /-- A runtime TypeError, e.g. reading a property of `undefined`. -/
  | typeError (msg : String)
deriving DecidableEq, Repr

/-- The document text: JavaScript strings are modelled as lists of characters. -/
abbrev Code := List Char

/-- `code.length` as a JavaScript number. -/
def codeLen (code : Code) : Int := code.length

/-- `code[i]`: `some` character when `0 <= i < code.length`, otherwise the
JavaScript `undefined`, modelled as `none`. -/
def charAt (code : Code) (i : Int) : Option Char :=
  if 0 ≤ i then code.get? i.toNat else none

/-- `code[i] === c` for a concrete character `c` (false on `undefined`). -/
def isChar (code : Code) (i : Int) (c : Char) : Bool :=
  charAt code i == some c

/-- The character class of the JavaScript regex `\s` (whitespace): space,
tab, newline, carriage return, vertical tab, form feed, and the Unicode
space separators (NBSP, OGHAM SPACE, EN QUAD through HAIR SPACE, LINE and
PARAGRAPH SEPARATOR, NARROW NBSP, MMSP, IDEOGRAPHIC SPACE) and BOM. -/
def isJsWhitespace (c : Char) : Bool :=
  c = ' ' ∨ c = '\t' ∨ c = '\n' ∨ c = '\r' ∨ c = '\x0b' ∨ c = '\x0c' ∨
  c.toNat = 0xa0 ∨ c.toNat = 0x1680 ∨
  (0x2000 ≤ c.toNat ∧ c.toNat ≤ 0x200a) ∨
  c.toNat = 0x2028 ∨ c.toNat = 0x2029 ∨ c.toNat = 0x202f ∨
  c.toNat = 0x205f ∨ c.toNat = 0x3000 ∨ c.toNat = 0xfeff

/-- `/\s/.test(code[i])`: false when `code[i]` is `undefined`, because the
test then runs on the string "undefined", which has no whitespace. -/
def isWsAt (code : Code) (i : Int) : Bool :=
  match charAt code i with
  | some c => isJsWhitespace c
  | none => false

/-- `code.slice(s, e)` with the JavaScript clamping rules. -/
def jsSlice (code : Code) (s e : Int) : Code :=
  let n : Int := codeLen code
  let s2 : Int := if s < 0 then max (n + s) 0 else min s n
  let e2 : Int := if e < 0 then max (n + e) 0 else min e n
  (code.take e2.toNat).drop s2.toNat

/-- `TextInterval` (commons): an inclusive, never-empty interval of text
positions. The private constructor validates its arguments. -/
structure TextInterval where
  startIndex : Int
  endIndex : Int
deriving DecidableEq, Repr

/-- `TextInterval.of` / the private constructor: fails on a negative or
inverted pair of bounds, otherwise stores the arguments unchanged. -/
def TextInterval.of (startIndex endIndex : Int) : Except JsError TextInterval :=
  if startIndex < 0 then
    .error (.thrown "The starting index cannot be negative")
  else if endIndex < 0 then
    .error (.thrown "The ending index cannot be negative")
  else if endIndex < startIndex then
    .error (.thrown "The starting index must be less or equal to the ending index")
  else
    .ok ⟨startIndex, endIndex⟩

/-- `TextInterval.size`: the number of characters covered. -/
def TextInterval.size (t : TextInterval) : Int :=
  t.endIndex - t.startIndex + 1

/-- `TextInterval.liesWithin`. -/
def TextInterval.liesWithin (t outer : TextInterval) : Bool :=
  t.startIndex ≥ outer.startIndex ∧ t.endIndex ≤ outer.endIndex

/-- `TextInterval.includes`. -/
def TextInterval.includes (t : TextInterval) (index : Int) : Bool :=
  t.startIndex ≤ index ∧ t.endIndex ≥ index

/-- `CommentType` (commons). -/
inductive CommentType where
  | singleLine
  | multiLine
  | javaDoc
deriving DecidableEq, Repr

/-- `Comment` (commons): a comment type together with its text interval. -/
structure Comment where
  type : CommentType
  interval : TextInterval
deriving DecidableEq, Repr

/-- `Comment.of`: builds the interval (which can fail) and wraps it. -/
def Comment.of (type : CommentType) (startIndex endIndex : Int) : Except JsError Comment :=
  match TextInterval.of startIndex endIndex with
  | .ok interval => .ok ⟨type, interval⟩
  | .error e => .error e

/-- The loop of `getCommentType` has no loop; direct translation:
looks at `code[index]` and possibly `code[index+1]`. -/
def getCommentType (code : Code) (index : Int) : Option CommentType :=
  match charAt code index with
  | some '/' => some .singleLine
  | some '*' =>
      if isChar code (index + 1) '*' then some .javaDoc else some .multiLine
  | _ => none

/-- Loop of `moveToEndOfLine`, walking the suffix of the code that starts at
position `i`; `index` is the fallback returned when no newline is found. -/
def endOfLineGo (rest : List Char) (i index : Int) : Int :=
  match rest with
  | [] => index
  | c :: rs => if c = '\n' then i else endOfLineGo rs (i + 1) index

/-- `moveToEndOfLine`: index of the next newline at or after `index`, or
`index` itself when there is none. For a negative `index` the JavaScript
loop wastes iterations on `undefined` characters and then scans from 0,
which coincides with scanning the suffix from `max index 0`. -/
def moveToEndOfLine (code : Code) (index : Int) : Int :=
  endOfLineGo (code.drop index.toNat) (max index 0) index

/-- Loop of `moveToEndOfComment`: looks for `*` immediately followed by `/`.
The bound check `code.length > i+1` is the head of the remaining suffix. -/
def endOfCommentGo (rest : List Char) (i index : Int) : Int :=
  match rest with
  | [] => index
  | c :: rs =>
      if c = '*' ∧ rs.head? = some '/' then i + 1
      else endOfCommentGo rs (i + 1) index

/-- `moveToEndOfComment`: index of the `/` of the first `*/` at or after
`index`, or `index` itself when there is none. -/
def moveToEndOfComment (code : Code) (index : Int) : Int :=
  endOfCommentGo (code.drop index.toNat) (max index 0) index

/-- Loop of `findComments`: one left-to-right pass; on `/` with at least one
more character, `getCommentType` classifies the opener; the scan resumes at
`i+1`, it never jumps past the comment just found. -/
def findCommentsGo (code : Code) (rest : List Char) (i : Int) (acc : List Comment) :
    Except JsError (List Comment) :=
  match rest with
  | [] => .ok acc
  | c :: rs =>
      if c = '/' ∧ rs ≠ [] then
        match getCommentType code (i + 1) with
        | some CommentType.singleLine =>
            match Comment.of CommentType.singleLine i (moveToEndOfLine code (i + 1)) with
            | .ok comment => findCommentsGo code rs (i + 1) (acc ++ [comment])
            | .error e => .error e
        | some t =>
            match Comment.of t i (moveToEndOfComment code (i + 1)) with
            | .ok comment => findCommentsGo code rs (i + 1) (acc ++ [comment])
            | .error e => .error e
        | none => findCommentsGo code rs (i + 1) acc
      else findCommentsGo code rs (i + 1) acc

/-- `findComments`: all comment spans of the document, in scan order. -/
def findComments (code : Code) : Except JsError (List Comment) :=
  findCommentsGo code code 0 []

/-- Loop of `includeLeadingWhitespaces`: walks backwards from position `i`
while whitespace is found, returning the successor of the first
non-whitespace position, or 0 when the scan runs off the left end. -/
def leadingWsGo (code : Code) (i : Nat) : Int :=
  if ¬ isWsAt code i then (i : Int) + 1
  else
    match i with
    | 0 => 0
    | n + 1 => leadingWsGo code n

/-- `includeLeadingWhitespaces`: returns `index` unchanged when `index <= 0`,
otherwise scans backwards from `index - 1`. -/
def includeLeadingWhitespaces (code : Code) (index : Int) : Int :=
  if index ≤ 0 then index
  else leadingWsGo code (index - 1).toNat

/-- Loop of `includeTrailingWhitespaces`: walks the suffix starting at
position `i`, remembering in `last` the most recent newline; stops at the
first non-whitespace character returning `last`; falls through to
`code.length - 1`. -/
def trailingWsGo (code : Code) (rest : List Char) (i last : Int) : Int :=
  match rest with
  | [] => codeLen code - 1
  | c :: rs =>
      if c = '\n' then trailingWsGo code rs (i + 1) i
      else if ¬ isJsWhitespace c then last
      else trailingWsGo code rs (i + 1) last

/-- `includeTrailingWhitespaces`: returns `index` when `index >= length-1`.
For a negative `index` the JavaScript loop reads `code[index]` as
`undefined`, which fails the whitespace test at once, so the initial
`lastNewLineIndex` value, `index`, is returned. -/
def includeTrailingWhitespaces (code : Code) (index : Int) : Int :=
  if index ≥ codeLen code - 1 then index
  else if index < 0 then index
  else trailingWsGo code (code.drop index.toNat) index index

/-- The `while` loop of `findJavaDoc`: starting from `current = comments[0]`,
advances over the remaining comments while their end index is before
`index`, keeping the last one passed. -/
def lastCommentBeforeGo (comments : List Comment) (index : Int) (current : Comment) : Comment :=
  match comments with
  | [] => current
  | c :: rest =>
      if c.interval.endIndex < index then lastCommentBeforeGo rest index c
      else current

/-- `findJavaDoc`: the last comment ending before `index`, accepted only when
it is a JavaDoc separated from `index` by whitespace alone. Reading
`comments[0]` on an empty list yields `undefined`, and the immediate
`.interval` access is a TypeError. -/
def findJavaDoc (code : Code) (index : Int) (comments : List Comment) :
    Except JsError (Option Comment) :=
  match comments with
  | [] => .error (.typeError "Cannot read properties of undefined")
  | c0 :: rest =>
      if c0.interval.endIndex > index then .ok none
      else
        let comment := lastCommentBeforeGo rest index c0
        if comment.type ≠ CommentType.javaDoc then .ok none
        else
          let spaces := jsSlice code (comment.interval.endIndex + 1) index
          .ok (if spaces.all isJsWhitespace then some comment else none)

/-- `includeJavaDoc`: start of the found JavaDoc, or `index` unchanged. -/
def includeJavaDoc (code : Code) (index : Int) (comments : List Comment) :
    Except JsError Int :=
  match findJavaDoc code index comments with
  | .ok (some javaDoc) => .ok javaDoc.interval.startIndex
  | .ok none => .ok index
  | .error e => .error e

/-- The initial `while` loop of `moveToClosingBracket` and of `getScopeOf`:
advances the comment cursor past every comment ending before `index`.
The cursor `k` into the array is modelled as the remaining suffix. -/
def dropEndedBefore (comments : List Comment) (index : Int) : List Comment :=
  match comments with
  | [] => []
  | c :: rest =>
      if c.interval.endIndex < index then dropEndedBefore rest index
      else c :: rest

/-- The `for` loop of `moveToClosingBracket`. One iteration first jumps the
scan position to the comment end when the pending comment has started, then
examines the character at the (possibly moved) position: `scope` goes up on
an open brace, down on a close brace, and the position is returned as soon
as `scope` reaches 0; otherwise the position advances by one. Falls through
to the original `index`. -/
def closingBracketGo (code : Code) (index : Int) (cs : List Comment) (i scope : Int) : Int :=
  if i < codeLen code then
    match cs with
    | c :: rest =>
        if i ≥ c.interval.startIndex then
          let j := c.interval.endIndex
          if isChar code j '\x7b' then closingBracketGo code index rest (j + 1) (scope + 1)
          else if isChar code j '\x7d' then
            if scope - 1 = 0 then j else closingBracketGo code index rest (j + 1) (scope - 1)
          else closingBracketGo code index rest (j + 1) scope
        else
          if isChar code i '\x7b' then closingBracketGo code index (c :: rest) (i + 1) (scope + 1)
          else if isChar code i '\x7d' then
            if scope - 1 = 0 then i else closingBracketGo code index (c :: rest) (i + 1) (scope - 1)
          else closingBracketGo code index (c :: rest) (i + 1) scope
    | [] =>
        if isChar code i '\x7b' then closingBracketGo code index [] (i + 1) (scope + 1)
        else if isChar code i '\x7d' then
          if scope - 1 = 0 then i else closingBracketGo code index [] (i + 1) (scope - 1)
        else closingBracketGo code index [] (i + 1) scope
  else index
termination_by (cs.length, (codeLen code - i).toNat)
decreasing_by
  all_goals simp_wf
  all_goals first
    | exact Prod.Lex.left _ _ (by omega)
    | exact Prod.Lex.right _ (by omega)

/-- `moveToClosingBracket`: assumes `index` points at an already-open brace;
the scan starts at `index + 1` with `scope = 1`, after discarding the
comments that end before `index`. -/
def moveToClosingBracket (code : Code) (index : Int) (comments : List Comment) : Int :=
  closingBracketGo code index (dropEndedBefore comments index) (index + 1) 1

/-- `JavaClass` (commons): name, signature and body intervals, the comments
of the class, and the ordered list of inner classes. The mutable
`outherClass` back-pointer of the source is not stored in the tree; it is
recovered from the position of a node inside its parent (see `ClassChain`
and `JavaClass.add`). -/
inductive JavaClass where
  | mk (name : String) (signatureInterval : TextInterval) (bodyInterval : TextInterval)
       (comments : List Comment) (innerClasses : List JavaClass)

/-- Field accessor. -/
def JavaClass.name : JavaClass → String
  | .mk n _ _ _ _ => n

/-- Field accessor. -/
def JavaClass.signatureInterval : JavaClass → TextInterval
  | .mk _ si _ _ _ => si

/-- Field accessor. -/
def JavaClass.bodyInterval : JavaClass → TextInterval
  | .mk _ _ bi _ _ => bi

/-- Field accessor. -/
def JavaClass.comments : JavaClass → List Comment
  | .mk _ _ _ cs _ => cs

/-- Field accessor. -/
def JavaClass.innerClasses : JavaClass → List JavaClass
  | .mk _ _ _ _ inner => inner

mutual

/-- Decidable equality of class nodes, by recursion over the tree; used to
model the JavaScript `===` on nodes (two distinct parse nodes always carry
distinct intervals, so structural equality coincides with identity). -/
def JavaClass.decEq : (a b : JavaClass) → Decidable (a = b)
  | .mk n1 si1 bi1 cs1 i1, .mk n2 si2 bi2 cs2 i2 =>
    have : Decidable (i1 = i2) := JavaClass.decEqList i1 i2
    decidable_of_iff (n1 = n2 ∧ si1 = si2 ∧ bi1 = bi2 ∧ cs1 = cs2 ∧ i1 = i2)
      (by simp [JavaClass.mk.injEq])

/-- Decidable equality of lists of class nodes. -/
def JavaClass.decEqList : (xs ys : List JavaClass) → Decidable (xs = ys)
  | [], [] => isTrue rfl
  | [], _ :: _ => isFalse (by simp)
  | _ :: _, [] => isFalse (by simp)
  | x :: xs, y :: ys =>
    have : Decidable (x = y) := JavaClass.decEq x y
    have : Decidable (xs = ys) := JavaClass.decEqList xs ys
    decidable_of_iff (x = y ∧ xs = ys) (by simp)

end

instance : DecidableEq JavaClass := JavaClass.decEq

/-- The list of inner classes is structurally smaller than the node. -/
theorem sizeOf_innerClasses_lt (jc : JavaClass) : sizeOf jc.innerClasses < sizeOf jc := by
  cases jc with
  | mk n si bi cs inner => simp [JavaClass.innerClasses]

/-- The `classInterval` field computed by the constructor:
`TextInterval.of(signature.startIndex, body.endIndex)`. -/
def JavaClass.classInterval (jc : JavaClass) : TextInterval :=
  ⟨jc.signatureInterval.startIndex, jc.bodyInterval.endIndex⟩

/-- `JavaClass.of`: the factory validates the class interval through the
constructor and keeps only the comments lying within the body interval. -/
def JavaClass.of (name : String) (signatureInterval bodyInterval : TextInterval)
    (comments : List Comment) : Except JsError JavaClass :=
  match TextInterval.of signatureInterval.startIndex bodyInterval.endIndex with
  | .ok _ =>
      .ok (.mk name signatureInterval bodyInterval
        (comments.filter (fun c => c.interval.liesWithin bodyInterval)) [])
  | .error e => .error e

/-- `JavaClass.add`: rejects a class that does not lie within the body, then
appends it to `innerClasses`; `setOutherClass` re-checks the same
containment and records the back-pointer, which the tree keeps implicitly
as list membership. The already-set check of `setOutherClass` cannot fire
here because the appended node carries no prior parent. -/
def JavaClass.add (jc innerClass : JavaClass) : Except JsError JavaClass :=
  if ¬ innerClass.classInterval.liesWithin jc.bodyInterval then
    .error (.thrown "The provided java class is not an inner class")
  else
    match jc with
    | .mk n si bi cs inner => .ok (.mk n si bi cs (inner ++ [innerClass]))

mutual

/-- `JavaClass.getEnclosingClass`: null outside `classInterval`; otherwise
the first inner class (in list order) reporting a non-null result wins,
with the class itself as the fallback. -/
def JavaClass.getEnclosingClass (jc : JavaClass) (index : Int) : Option JavaClass :=
  if ¬ jc.classInterval.includes index then none
  else
    match enclosingAmong jc.innerClasses index with
    | some pointedClass => some pointedClass
    | none => some jc
termination_by sizeOf jc
decreasing_by exact sizeOf_innerClasses_lt jc

/-- The `for` loop over `innerClasses` inside `getEnclosingClass`. -/
def enclosingAmong (classes : List JavaClass) (index : Int) : Option JavaClass :=
  match classes with
  | [] => none
  | c :: rest =>
      match JavaClass.getEnclosingClass c index with
      | some pointedClass => some pointedClass
      | none => enclosingAmong rest index
termination_by sizeOf classes
decreasing_by
  all_goals simp
  all_goals omega

end

/-- `JavaClass.getScope`: the source reads the mutable `outherClass`
back-pointer, made explicit here as a chain of enclosing class nodes; a
chain is a node together with its (optional) outer chain. -/
inductive ClassChain where
  | root (node : JavaClass)
  | inner (node : JavaClass) (outherClass : ClassChain)
deriving DecidableEq

/-- `getScope()`: `outherClass ? outherClass.getScope() + 1 : 1`. -/
def ClassChain.getScope : ClassChain → Int
  | .root _ => 1
  | .inner _ outherClass => outherClass.getScope + 1

/-- The `for` loop of `getScopeOf` over `[index, bodyEnd)`: when the pending
comment has started, the position jumps to just past the comment end and no
character is examined this iteration; otherwise braces move `scope` up or
down. Falls through to the accumulated `scope`. -/
def scopeOfGo (code : Code) (bodyEnd : Int) (cs : List Comment) (i scope : Int) : Int :=
  if i < bodyEnd then
    match cs with
    | c :: rest =>
        if c.interval.startIndex ≤ i then
          scopeOfGo code bodyEnd rest (c.interval.endIndex + 1) scope
        else
          scopeOfGo code bodyEnd (c :: rest) (i + 1)
            (if isChar code i '\x7b' then scope + 1
             else if isChar code i '\x7d' then scope - 1 else scope)
    | [] =>
        scopeOfGo code bodyEnd [] (i + 1)
          (if isChar code i '\x7b' then scope + 1
           else if isChar code i '\x7d' then scope - 1 else scope)
  else scope
termination_by (cs.length, (bodyEnd - i).toNat)
decreasing_by
  all_goals simp_wf
  all_goals first
    | exact Prod.Lex.left _ _ (by omega)
    | exact Prod.Lex.right _ (by omega)

/-- `JavaClass.getScopeOf`: brace depth from `index` to the end of the body
(exclusive), skipping this class's own comments. -/
def JavaClass.getScopeOf (jc : JavaClass) (index : Int) (code : Code) : Int :=
  scopeOfGo code jc.bodyInterval.endIndex (dropEndedBefore jc.comments index) index 0

/-- `JavaClass.belongsToAComment`: the `for` loop returns at the first
comment whose interval includes `index`. -/
def JavaClass.belongsToAComment (jc : JavaClass) (index : Int) : Bool :=
  jc.comments.any (fun comment => comment.interval.includes index)

/-- `JavaClass.getInsertIndex`: the guarded sequence of the source — outside
the body, on a non-whitespace character, inside a comment, or at nonzero
scope the end of the body is returned; otherwise the index itself. -/
def JavaClass.getInsertIndex (jc : JavaClass) (code : Code) (index : Int) : Int :=
  if ¬ jc.bodyInterval.includes index then jc.bodyInterval.endIndex
  else if ¬ isWsAt code index then jc.bodyInterval.endIndex
  else if jc.belongsToAComment index then jc.bodyInterval.endIndex
  else if jc.getScopeOf index code ≠ 0 then jc.bodyInterval.endIndex
  else index

/-- One element of `javaFileContent.matchAll(regexp)` as used by
`findExistingMethod`: only `match.index` and `match[0].length` are read, so
a match is its start index and its length. -/
structure SigMatch where
  index : Int
  length : Int
deriving DecidableEq, Repr

/-- `findExistingMethod`: walks the matches of the signature pattern; a match
is accepted when the innermost enclosing class is the target node itself
(the JavaScript `===` on nodes, modelled as equality of the tree values);
the selection grows left over the JavaDoc and leading whitespace and right
over trailing whitespace after the matching close bracket. -/
def findExistingMethod (javaFileContent : Code) (sigMatches : List SigMatch)
    (javaClass : JavaClass) : Except JsError (Option TextInterval) :=
  match sigMatches with
  | [] => .ok none
  | m :: rest =>
      if javaClass.getEnclosingClass m.index = some javaClass then
        match includeJavaDoc javaFileContent m.index javaClass.comments with
        | .error e => .error e
        | .ok javaDocStartIndex =>
            let leadingWhiteSpacesStartIndex :=
              includeLeadingWhitespaces javaFileContent javaDocStartIndex
            let openBracketIndex := m.index + m.length
            let closeBracketIndex :=
              moveToClosingBracket javaFileContent openBracketIndex javaClass.comments
            let selectionEndIndex :=
              includeTrailingWhitespaces javaFileContent (closeBracketIndex + 1)
            match TextInterval.of leadingWhiteSpacesStartIndex selectionEndIndex with
            | .ok t => .ok (some t)
            | .error e => .error e
      else findExistingMethod javaFileContent rest javaClass

/-! ### Helper lemmas -/

/-- `includes` unfolded to the two comparisons. -/
theorem includes_iff (t : TextInterval) (i : Int) :
    t.includes i = true ↔ t.startIndex ≤ i ∧ i ≤ t.endIndex := by
  simp [TextInterval.includes]

/-- `liesWithin` unfolded to the two comparisons. -/
theorem liesWithin_iff (t outer : TextInterval) :
    t.liesWithin outer = true ↔
      outer.startIndex ≤ t.startIndex ∧ t.endIndex ≤ outer.endIndex := by
  simp [TextInterval.liesWithin]

/-- `isChar` unfolded to the character lookup. -/
theorem isChar_iff (code : Code) (i : Int) (c : Char) :
    isChar code i c = true ↔ charAt code i = some c := by
  simp [isChar]

/-- A character produced by `charAt` is a member of the code. -/
theorem charAt_mem (code : Code) (i : Int) (c : Char) (h : charAt code i = some c) :
    c ∈ code := by
  unfold charAt at h
  split at h
  · exact List.get?_mem h
  · exact absurd h (by simp)

/-! ### Demo inputs shared by the concrete theorems -/

/-- The text of the spec example `"{A{B}C}"`. -/
def exCode1 : Code := "\x7bA\x7bB\x7dC\x7d".toList

/-- The text of the spec example `"{ /* } */ }"`. -/
def exCode2 : Code := "\x7b /* \x7d */ \x7d".toList

/-- The single comment of `exCode2`, as found by `findComments`. -/
def exComment2 : Comment := ⟨CommentType.multiLine, ⟨2, 8⟩⟩

/-- A root class node (no `outherClass`), as built for `class A { ... }`. -/
def rootClass : JavaClass := .mk "A" ⟨0, 7⟩ ⟨8, 21⟩ [] []

/-! ### C1 -/

/-- C1 counterexample: `getScope()` on a class with no outer class returns
1, not 0 as claimed — the claim is false at this concrete input. -/
theorem claim_C1_counterexample :
    ¬ ClassChain.getScope (ClassChain.root rootClass) = 0 := by decide

/-- C1 (amended): for every class node with no parent `getScope()` returns
1 (not 0), and for every node attached to a parent it returns 1 plus the
parent's `getScope()`. -/
theorem claim_C1 :
    ∀ (node : JavaClass) (outherClass : ClassChain),
      ClassChain.getScope (.root node) = 1 ∧
      ClassChain.getScope (.inner node outherClass) =
        ClassChain.getScope outherClass + 1 := by
  intro node outherClass
  exact ⟨rfl, rfl⟩

/-! ### C9 -/

/-- C9: `TextInterval.of(s,e)` succeeds exactly when `0 <= s <= e`, storing
its arguments unchanged; it fails when `s < 0`, `e < 0` or `e < s`; a
successfully built interval never has size below 1. -/
theorem claim_C9 :
    ∀ s e : Int,
      ((∃ t, TextInterval.of s e = Except.ok t ∧ t.startIndex = s ∧ t.endIndex = e) ↔
        0 ≤ s ∧ s ≤ e) ∧
      (s < 0 ∨ e < 0 ∨ e < s → ∃ msg, TextInterval.of s e = Except.error (.thrown msg)) ∧
      (∀ t, TextInterval.of s e = Except.ok t → 1 ≤ t.size) := by
  intro s e
  unfold TextInterval.of
  split_ifs with h1 h2 h3
  · refine ⟨?_, ?_, ?_⟩
    · constructor
      · rintro ⟨t, ht, -, -⟩; cases ht
      · omega
    · intro _; exact ⟨_, rfl⟩
    · intro t ht; cases ht
  · refine ⟨?_, ?_, ?_⟩
    · constructor
      · rintro ⟨t, ht, -, -⟩; cases ht
      · omega
    · intro _; exact ⟨_, rfl⟩
    · intro t ht; cases ht
  · refine ⟨?_, ?_, ?_⟩
    · constructor
      · rintro ⟨t, ht, -, -⟩; cases ht
      · omega
    · intro _; exact ⟨_, rfl⟩
    · intro t ht; cases ht
  · refine ⟨?_, ?_, ?_⟩
    · constructor
      · intro _; omega
      · intro _; exact ⟨_, rfl, rfl, rfl⟩
    · intro h; omega
    · intro t ht
      cases ht
      simp [TextInterval.size]
      omega

/-- C9 witness: the theorem applied at `(-1, 2)` (failure) and `(0, 2)`
(success with size 3). -/
theorem claim_C9_witness :
    (∃ msg, TextInterval.of (-1) 2 = Except.error (JsError.thrown msg)) ∧
    1 ≤ TextInterval.size ⟨0, 2⟩ :=
  ⟨(claim_C9 (-1) 2).2.1 (Or.inl (by norm_num)),
   (claim_C9 0 2).2.2 ⟨0, 2⟩ rfl⟩

/-! ### C10 -/

/-- The text `"/* // x */"` followed by a newline. -/
def exCode10 : Code := "/* // x */\n".toList

/-- The multi-line comment spanning the whole `/* ... */` of `exCode10`. -/
def exComment10a : Comment := ⟨CommentType.multiLine, ⟨0, 9⟩⟩

/-- The single-line comment starting at the `//` inside `exCode10`. -/
def exComment10b : Comment := ⟨CommentType.singleLine, ⟨3, 10⟩⟩

/-- C10: the comment scan resumes right after a comment opener instead of
jumping past the detected comment, so on `"/* // x */\n"` it returns both
the multi-line comment `[0,9]` and the single-line comment `[3,10]`
starting inside it: the list is ordered by start index yet its two
intervals overlap. -/
theorem claim_C10 :
    findComments exCode10 = Except.ok [exComment10a, exComment10b] ∧
    exComment10a.interval.startIndex ≤ exComment10b.interval.startIndex ∧
    exComment10b.interval.startIndex ≤ exComment10a.interval.endIndex ∧
    exComment10a.interval.endIndex ≤ exComment10b.interval.endIndex := by
  refine ⟨rfl, by decide, by decide, by decide⟩

/-! ### C7 -/

/-- The trailing single-line comment text `"// ab"` with no final newline. -/
def exCode7 : Code := "// ab".toList

/-- C7 counterexample: on `"// ab"` (no newline after the comment) the
single-line comment produced by `findComments` ends at index 1 — the probed
scan start, i.e. the second `/` — and not at the last character of the
text (index 4), as the claim would require. -/
theorem claim_C7_counterexample :
    findComments exCode7 = Except.ok [⟨CommentType.singleLine, ⟨0, 1⟩⟩] ∧
    (1 : Int) ≠ codeLen exCode7 - 1 := by
  refine ⟨rfl, by decide⟩

/-- Written after the spec sentence "ending at the next newline": the
document index of the first newline at or after `pos`, scanning the
remaining characters; `none` when no newline follows. -/
def nextNewlineIn : List Char → Int → Option Int
  | [], _ => none
  | c :: rs, pos => if c = '\n' then some pos else nextNewlineIn rs (pos + 1)

/-- The spec-side reading of `moveToEndOfLine`, with the fallback the code
actually implements: the next newline, or the probed index when none. -/
def nextNewlineSpec (code : Code) (index : Int) : Option Int :=
  nextNewlineIn (code.drop index.toNat) index

/-- `endOfLineGo` agrees with the spec-side newline search. -/
theorem endOfLineGo_eq_nextNewlineIn (rest : List Char) (i index : Int) :
    endOfLineGo rest i index = (nextNewlineIn rest i).getD index := by
  induction rest generalizing i with
  | nil => simp [endOfLineGo, nextNewlineIn]
  | cons c rs ih =>
      by_cases hc : c = '\n'
      · simp [endOfLineGo, nextNewlineIn, hc]
      · simp [endOfLineGo, nextNewlineIn, hc, ih]

/-- C7 (amended): a `//` occurrence starts a single-line comment whose end
index is the index of the next newline character; when no newline follows,
the end index falls back to the scan start (the index of the character
after the first `/`), not to the end of the text. Concretely, on
`"// a\nx"` the comment is `[0,4]`, ending at the newline. -/
theorem claim_C7 :
    (∀ (code : Code) (index : Int), 0 ≤ index →
      moveToEndOfLine code index = (nextNewlineSpec code index).getD index) ∧
    findComments ("// a\nx".toList) =
      Except.ok [⟨CommentType.singleLine, ⟨0, 4⟩⟩] := by
  constructor
  · intro code index h
    unfold moveToEndOfLine nextNewlineSpec
    rw [endOfLineGo_eq_nextNewlineIn]
    rw [max_eq_left h]
  · rfl

/-- C7 witness: the amended theorem applied to `"a//b"` at index 1 — no
newline follows, so the fallback start index 1 is returned. -/
theorem claim_C7_witness :
    moveToEndOfLine ("a//b".toList) 1 = (nextNewlineSpec ("a//b".toList) 1).getD 1 :=
  claim_C7.1 ("a//b".toList) 1 (by norm_num)

/-! ### C3 -/

/-- C3: on `"{A{B}C}"` with its (empty) comment list the matcher started at
the first brace returns 6, the index of the final close brace; on
`"{ /* } */ }"` with its comment list it returns 10, the real close brace
outside the comment, not the close brace at index 5 inside the comment. -/
theorem claim_C3 :
    (findComments exCode1 = Except.ok [] ∧
      moveToClosingBracket exCode1 0 [] = 6 ∧
      charAt exCode1 6 = some '\x7d' ∧ codeLen exCode1 = 7) ∧
    (findComments exCode2 = Except.ok [exComment2] ∧
      moveToClosingBracket exCode2 0 [exComment2] = 10 ∧
      charAt exCode2 10 = some '\x7d' ∧
      exComment2.interval.includes 5 = true ∧ charAt exCode2 5 = some '\x7d') := by
  refine ⟨⟨rfl, ?_, by decide, by decide⟩, ⟨rfl, ?_, by decide, by decide, by decide⟩⟩
  · simp [moveToClosingBracket, dropEndedBefore, closingBracketGo, isChar, charAt,
      codeLen, exCode1]
  · simp [moveToClosingBracket, dropEndedBefore, closingBracketGo, isChar, charAt,
      codeLen, exCode2, exComment2]

/-! ### C8 -/

/-- The bracket-matching loop either falls through with the original
`index` or stops on an actual close brace of the text. -/
theorem closingBracketGo_found_or_index (code : Code) (index : Int)
    (cs : List Comment) (i scope : Int) :
    closingBracketGo code index cs i scope = index ∨
    charAt code (closingBracketGo code index cs i scope) = some '\x7d' := by
  induction cs, i, scope using closingBracketGo.induct code index
  all_goals try rw [closingBracketGo]
  all_goals try simp only [if_neg (by assumption : ¬ _ ≥ _)]
  all_goals try simp_all [isChar_iff]
  all_goals rw [closingBracketGo.eq_def]
  all_goals rw [if_neg (by omega)]
  all_goals exact Or.inl rfl

/-- C8: the matcher returns either an actual close-brace position of the
text or exactly the original input index; in particular, when the text has
no close brace at all (so no match can exist), the original index comes
back unchanged as the "not found" sentinel. -/
theorem claim_C8 :
    ∀ (code : Code) (index : Int) (comments : List Comment),
      (moveToClosingBracket code index comments = index ∨
        charAt code (moveToClosingBracket code index comments) = some '\x7d') ∧
      ('\x7d' ∈ code ∨ moveToClosingBracket code index comments = index) := by
  intro code index comments
  have h := closingBracketGo_found_or_index code index
    (dropEndedBefore comments index) (index + 1) 1
  unfold moveToClosingBracket
  refine ⟨h, ?_⟩
  rcases h with h | h
  · exact Or.inr h
  · exact Or.inl (charAt_mem _ _ _ h)

/-! ### C4 -/

/-- The membership form of `belongsToAComment`. -/
theorem belongsToAComment_iff (jc : JavaClass) (index : Int) :
    jc.belongsToAComment index = true ↔
      ∃ c ∈ jc.comments, c.interval.includes index = true := by
  simp [JavaClass.belongsToAComment, List.any_eq_true]

/-- C4: `getInsertIndex` returns `bodyInterval.end` whenever the probed
index is outside the body interval, or the character there is not
whitespace, or the index lies inside one of the class's own comments, or
the brace depth from the index to the end of the body (skipping comments)
is nonzero; in all remaining cases it returns the probed index. -/
theorem claim_C4 :
    ∀ (jc : JavaClass) (code : Code) (index : Int),
      jc.getInsertIndex code index =
        if ¬ (jc.bodyInterval.startIndex ≤ index ∧ index ≤ jc.bodyInterval.endIndex)
            ∨ ¬ isWsAt code index = true
            ∨ (∃ c ∈ jc.comments, c.interval.includes index = true)
            ∨ ¬ jc.getScopeOf index code = 0
        then jc.bodyInterval.endIndex
        else index := by
  intro jc code index
  unfold JavaClass.getInsertIndex
  by_cases h1 : jc.bodyInterval.includes index = true <;>
  by_cases h2 : isWsAt code index = true <;>
  by_cases h3 : jc.belongsToAComment index = true <;>
  by_cases h4 : jc.getScopeOf index code = 0 <;>
  simp_all [includes_iff, belongsToAComment_iff]

/-! ### C5 -/

/-- `getEnclosingClass` answers `none` exactly outside `classInterval`. -/
theorem getEnclosingClass_eq_none_iff (jc : JavaClass) (index : Int) :
    jc.getEnclosingClass index = none ↔ ¬ jc.classInterval.includes index = true := by
  rw [JavaClass.getEnclosingClass]
  constructor
  · intro h
    by_cases hin : jc.classInterval.includes index = true
    · rw [if_neg (not_not_intro hin)] at h
      cases hmatch : enclosingAmong jc.innerClasses index <;> rw [hmatch] at h <;> cases h
    · exact hin
  · intro h
    rw [if_pos h]

/-- The loop over the inner classes selects the first inner class whose
`classInterval` contains the index: a child answers non-null exactly when
its interval contains the index. -/
theorem enclosingAmong_eq_find (classes : List JavaClass) (index : Int) :
    enclosingAmong classes index =
      match classes.find? (fun c => c.classInterval.includes index) with
      | some firstChild => firstChild.getEnclosingClass index
      | none => none := by
  induction classes with
  | nil => simp [enclosingAmong]
  | cons c rest ih =>
      rw [enclosingAmong]
      by_cases hc : c.classInterval.includes index = true
      · cases hr : c.getEnclosingClass index with
        | none => exact absurd ((getEnclosingClass_eq_none_iff c index).mp hr) (not_not_intro hc)
        | some r => simp [List.find?_cons, hc, hr]
      · have hnone : c.getEnclosingClass index = none :=
          (getEnclosingClass_eq_none_iff c index).mpr hc
        simp [List.find?_cons, hc, hnone, ih]

/-- C5: `getEnclosingClass(index)` is null outside `classInterval`, and
inside it equals the recursive result of the first child (in source order)
whose `classInterval` contains the index, falling back to the node itself;
moreover, after `A.add(B)` for a childless `A` whose signature starts no
later than its body and a childless `B` inside `A`'s body, every index
inside `B` resolves to `B`, and `B` sits among `A`'s inner classes — the
attachment that `setOutherClass` records as `B`'s parent. -/
theorem claim_C5 :
    (∀ (jc : JavaClass) (index : Int),
      (¬ jc.classInterval.includes index = true → jc.getEnclosingClass index = none) ∧
      (jc.classInterval.includes index = true →
        jc.getEnclosingClass index =
          match jc.innerClasses.find? (fun c => c.classInterval.includes index) with
          | some firstChild => firstChild.getEnclosingClass index
          | none => some jc)) ∧
    (∀ (a b a2 : JavaClass) (index : Int),
      a.add b = Except.ok a2 →
      a.innerClasses = [] →
      b.innerClasses = [] →
      a.signatureInterval.startIndex ≤ a.bodyInterval.startIndex →
      b.classInterval.includes index = true →
      a2.getEnclosingClass index = some b ∧ b ∈ a2.innerClasses) := by
  constructor
  · intro jc index
    constructor
    · exact (getEnclosingClass_eq_none_iff jc index).mpr
    · intro hin
      rw [JavaClass.getEnclosingClass, if_neg (not_not_intro hin), enclosingAmong_eq_find]
      cases h : jc.innerClasses.find? (fun c => c.classInterval.includes index) with
      | none => rfl
      | some firstChild =>
          have hc : firstChild.classInterval.includes index = true := by
            have := List.find?_some h
            simpa using this
          cases hr : firstChild.getEnclosingClass index with
          | none => exact absurd ((getEnclosingClass_eq_none_iff _ _).mp hr) (not_not_intro hc)
          | some r => simp [hr]
  · intro a b a2 index hadd hano hbno hsig hbin0
    unfold JavaClass.add at hadd
    split at hadd
    · cases hadd
    · rename_i hlw
      rw [not_not] at hlw
      cases a with
      | mk n si bi cs inner =>
          cases hadd
          have hinner : inner = [] := hano
          subst hinner
          simp only [List.nil_append]
          have hlw' := (liesWithin_iff _ _).mp hlw
          have hbin' := (includes_iff _ _).mp hbin0
          simp only [JavaClass.classInterval, JavaClass.signatureInterval,
            JavaClass.bodyInterval] at hlw' hbin'
          have hsig' : si.startIndex ≤ bi.startIndex := hsig
          have hbEnc : b.getEnclosingClass index = some b := by
            rw [JavaClass.getEnclosingClass, if_neg (not_not_intro hbin0), hbno]
            rw [show enclosingAmong [] index = none from by rw [enclosingAmong]]
          constructor
          · rw [JavaClass.getEnclosingClass]
            have ha2in : (JavaClass.mk n si bi cs [b]).classInterval.includes index = true := by
              rw [includes_iff]
              simp only [JavaClass.classInterval, JavaClass.signatureInterval,
                JavaClass.bodyInterval]
              omega
            rw [if_neg (not_not_intro ha2in)]
            have hone :
                enclosingAmong (JavaClass.innerClasses (JavaClass.mk n si bi cs [b])) index =
                  some b := by
              rw [show JavaClass.innerClasses (JavaClass.mk n si bi cs [b]) = [b] from rfl]
              rw [enclosingAmong, hbEnc]
            rw [hone]
          · rw [show JavaClass.innerClasses (JavaClass.mk n si bi cs [b]) = [b] from rfl]
            exact List.mem_singleton.mpr rfl

/-- Outer class `A` before attachment, as for `class A { ... }`. -/
def outerA : JavaClass := .mk "A" ⟨0, 7⟩ ⟨8, 27⟩ [] []

/-- Inner class `B` with header `[10,17]` and body `[18,25]` inside `A`. -/
def innerB : JavaClass := .mk "B" ⟨10, 17⟩ ⟨18, 25⟩ [] []

/-- The result of `outerA.add(innerB)`. -/
def outerWithB : JavaClass := .mk "A" ⟨0, 7⟩ ⟨8, 27⟩ [] [innerB]

/-- C5 witness: the theorem applied at index 99, outside `A` (null), and to
the concrete `A`/`B` pair at index 19, which lies inside `B`. -/
theorem claim_C5_witness :
    JavaClass.getEnclosingClass outerA 99 = none ∧
    JavaClass.getEnclosingClass outerWithB 19 = some innerB ∧
    innerB ∈ outerWithB.innerClasses :=
  ⟨(claim_C5.1 outerA 99).1 (by decide),
   claim_C5.2 outerA innerB outerWithB 19 rfl rfl rfl (by decide) rfl⟩

/-! ### C6 -/

/-- C6: when no match of the signature pattern is owned by the target class
node — in particular when every match lies in an inner class, so the
innermost enclosing class is that inner node, not the target —
`findExistingMethod` returns null. Ownership is the identity test
`ownerClass === javaClass` on nodes, not a comparison of class names. -/
theorem claim_C6 :
    ∀ (javaFileContent : Code) (sigMatches : List SigMatch) (javaClass : JavaClass),
      (∀ m ∈ sigMatches, javaClass.getEnclosingClass m.index ≠ some javaClass) →
      findExistingMethod javaFileContent sigMatches javaClass = Except.ok none := by
  intro code sigMatches jc h
  induction sigMatches with
  | nil => rfl
  | cons m rest ih =>
      rw [findExistingMethod, if_neg (h m (List.mem_cons_self m rest))]
      exact ih (fun m2 hm2 => h m2 (List.mem_cons_of_mem m hm2))

/-- An inner class named `A`, same name as its outer class. -/
def dupInner : JavaClass := .mk "A" ⟨10, 17⟩ ⟨18, 25⟩ [] []

/-- An outer class named `A` containing `dupInner`. -/
def dupOuter : JavaClass := .mk "A" ⟨0, 7⟩ ⟨8, 27⟩ [] [dupInner]

/-- C6 witness: a single match at index 19 inside the inner class (which
bears the same name as the outer target) yields null for the outer. -/
theorem claim_C6_witness :
    findExistingMethod [] [⟨19, 6⟩] dupOuter = Except.ok none :=
  claim_C6 [] [⟨19, 6⟩] dupOuter (by
    intro m hm
    rw [List.mem_singleton] at hm
    subst hm
    have henc : dupOuter.getEnclosingClass 19 = some dupInner := by
      simp [dupOuter, dupInner, JavaClass.getEnclosingClass, enclosingAmong,
        JavaClass.classInterval, JavaClass.signatureInterval, JavaClass.bodyInterval,
        JavaClass.innerClasses, TextInterval.includes]
    rw [henc]
    simp [dupInner, dupOuter])

/-! ### C2 -/

/-- The text `"class A { void m(){} }"`, which has no comments. -/
def crashCode : Code := "class A \x7b void m()\x7b\x7d \x7d".toList

/-- The class node the parser builds for `crashCode`: signature `[0,7]`,
body `[8,21]`, empty comment list. -/
def crashClass : JavaClass := .mk "A" ⟨0, 7⟩ ⟨8, 21⟩ [] []

/-- The match of a signature pattern on `void m()` at index 10, length 8,
so the open bracket sits at index 18. -/
def crashMatch : SigMatch := ⟨10, 8⟩

/-- C2 (code bug): with an empty comment list and a match owned by the
target class, `findExistingMethod` does not return null — `findJavaDoc`
reads `comments[0].interval` on the empty list and throws a TypeError. -/
theorem claim_C2 :
    crashClass.comments = [] ∧
    JavaClass.getEnclosingClass crashClass 10 = some crashClass ∧
    findExistingMethod crashCode [crashMatch] crashClass =
      Except.error (JsError.typeError "Cannot read properties of undefined") := by
  have henc : JavaClass.getEnclosingClass crashClass 10 = some crashClass := by
    simp [crashClass, JavaClass.getEnclosingClass, enclosingAmong,
      JavaClass.classInterval, JavaClass.signatureInterval, JavaClass.bodyInterval,
      JavaClass.innerClasses, TextInterval.includes]
  have henc2 : JavaClass.getEnclosingClass crashClass crashMatch.index = some crashClass := henc
  refine ⟨rfl, henc, ?_⟩
  rw [findExistingMethod, if_pos henc2]
  rfl
